import Mathlib

/-!
Verification of the go-xerrors error-handling library (package `xerrors`).

This file gives a shallow embedding of the library's error node types and
the operations the specification talks about, translated from the Go
sources:

  * `xerrors.go`    : `Message`, `New`, `Join`, `Joinf`, `toError`,
                      `messageError`
  * `wrapper.go`    : `withWrapper` (`Error`, `ErrorDetails`, `Unwrap`, `Is`)
  * `stacktrace.go` : `withStackTrace`, `StackTrace`, `Frame`, `Callers`
  * `multierror.go` : `Append`, `multiError` (`Error`, `ErrorDetails`,
                      `Unwrap`, `Is`)
  * `value.go`      : `WithValue`, `value`, `Values`
  * `format.go`     : `writeErr`, `Sprint`, `Print`, `Fprint`, `indent`

Go interface values that may be `nil` are modelled as `Option Err`.
Pointer identity of allocated `messageError` nodes is modelled by a
numeric tag: each allocation site gets a distinct tag, so two sentinel
errors with the same text stay distinguishable.  Stack capture
(`runtime.Callers`) is an environment input; a captured stack is modelled
as the resolved list of frames and passed to the constructors that would
capture it.
-/

namespace Xerrors

/-- A stack frame: file path, line number, function name
(`Frame` in `stacktrace.go`). -/
structure Frame where
  file : String
  line : Nat
  fn : String
deriving DecidableEq, Repr

/-- `Callers` in `stacktrace.go`: an ordered sequence of captured frames.
(In Go it is a list of program counters; the pc-to-frame resolution is a
runtime lookup, so the model carries the resolved frames directly.) -/
abbrev Callers := List Frame

/-- The closed set of error node types of the package:

  * `msg`    : `*messageError` (`xerrors.go`); the tag models the
               allocation identity of the pointer.
  * `wrap`   : `*withWrapper` (`wrapper.go`): optional wrapper, required
               next error, optional message override (`""` = unset,
               exactly as the Go code tests `e.msg != ""`).
  * `stack`  : `*withStackTrace` (`stacktrace.go`).
  * `multi`  : `multiError` (`multierror.go`), a slice of errors.
  * `value`  : `*value` (`value.go`), a key/value annotation. -/
inductive Err where
  | msg (tag : Nat) (s : String)
  | wrap (wrapper : Option Err) (next : Err) (m : String)
  | stack (next : Err) (st : Callers)
  | multi (children : List Err)
  | value (next : Err) (key : String) (v : String)

/-- Does the node have Go type `multiError`?  (A Go slice type, hence not
comparable with `==`; `errors.Is` skips the direct comparison when the
target is such a value.) -/
def isMultiE : Err → Bool
  | .multi _ => true
  | _ => false

/-- The Go 1.13 `Unwrap() error` method, as probed by
`err.(interface{ Unwrap() error })`: `withWrapper`, `withStackTrace` and
`value` return their next error; `messageError` has no such method and
`multiError` only has `Unwrap() []error`. -/
def unwrapE : Err → Option Err
  | .wrap _ n _ => some n
  | .stack n _ => some n
  | .value n _ _ => some n
  | .msg _ _ => none
  | .multi _ => none

mutual

/-- The `Error()` method of each node type:
  * `messageError.Error` returns the stored message (`xerrors.go`);
  * `withWrapper.Error` returns the override if set, else
    `wrapper.Error() + ": " + err.Error()` (or just `err.Error()` when
    the wrapper is nil) (`wrapper.go`);
  * `withStackTrace.Error` delegates to the wrapped error
    (`stacktrace.go`);
  * `multiError.Error` renders `"[" + children joined by ", " + "]"`
    (`multierror.go`);
  * `value.Error` delegates to the wrapped error (`value.go`). -/
def errString : Err → String
  | .msg _ s => s
  | .wrap w n m =>
      if m ≠ "" then m
      else
        (match w with
         | some we => errString we ++ ": "
         | none => "") ++ errString n
  | .stack n _ => errString n
  | .multi cs => "[" ++ errStringList cs ++ "]"
  | .value n _ _ => errString n

/-- The loop body of `multiError.Error`: children joined by `", "`. -/
def errStringList : List Err → String
  | [] => ""
  | [e] => errString e
  | e :: rest => errString e ++ ", " ++ errStringList rest

end

/-- `Error()` lifted to a possibly-nil error. -/
def errStringO : Option Err → Option String :=
  Option.map errString

mutual

/-- Structural equality of error nodes.  It models Go's `==` on error
interface values: pointer identity for allocated nodes is captured by
the tags carried in the model, so two nodes are `beqErr`-equal exactly
when they denote the same constructed error value. -/
def beqErr : Err → Err → Bool
  | .msg t s, .msg t' s' => t == t' && s == s'
  | .wrap w n m, .wrap w' n' m' => beqOptErr w w' && beqErr n n' && m == m'
  | .stack n st, .stack n' st' => beqErr n n' && st == st'
  | .multi cs, .multi cs' => beqErrList cs cs'
  | .value n k v, .value n' k' v' => beqErr n n' && k == k' && v == v'
  | _, _ => false

def beqOptErr : Option Err → Option Err → Bool
  | none, none => true
  | some e, some e' => beqErr e e'
  | _, _ => false

def beqErrList : List Err → List Err → Bool
  | [], [] => true
  | e :: r, e' :: r' => beqErr e e' && beqErrList r r'
  | _, _ => false

end

/-- `toError` in `xerrors.go`: the conversion rule applied to each
non-nil argument of `New`/`Join`.  An error is used as is; a string, a
`fmt.Stringer`, and any other value become a fresh `messageError`
carrying the corresponding text (`String()` for a Stringer, the
`fmt.Sprint` rendering otherwise).  `tag` models the allocation
identity of the fresh `messageError`. -/
inductive Val where
  | str (s : String)
  | err (e : Err)
  | stringer (tag : Nat) (s : String)
  | other (s : String)

def toError (tag : Nat) : Val → Err
  | .err e => e
  | .str s => .msg tag s
  | .stringer _ s => .msg tag s
  | .other s => .msg tag s

/-- `Message` in `xerrors.go`: a fresh `messageError` with the given
message and no stack trace. -/
def Message (tag : Nat) (s : String) : Err := .msg tag s

/-- `Join` in `xerrors.go`: the loop runs `i` from the last value down
to the first, skipping nils; the first non-nil value (from the end)
becomes the accumulator, and every earlier non-nil value `v` replaces
the accumulator `wErr` by `&withWrapper{wrapper: toError(v), err: wErr}`.
The model recurses on the tail first, which processes the later
indices first exactly as the loop does; `i` numbers the values so each
converted value gets a distinct allocation tag. -/
def joinGo (i : Nat) : List (Option Val) → Option Err
  | [] => none
  | v? :: rest =>
    let acc := joinGo (i + 1) rest
    match v? with
    | none => acc
    | some v =>
      match acc with
      | none => some (toError i v)
      | some w => some (.wrap (some (toError i v)) w "")

def JoinE (vals : List (Option Val)) : Option Err := joinGo 0 vals

/-- `New` in `xerrors.go`: `Join` the values; nil stays nil, otherwise
the result is wrapped in a `withStackTrace` carrying the stack captured
at the call site (`callers(1)`), which the model receives as `st`. -/
def NewE (st : Callers) (vals : List (Option Val)) : Option Err :=
  match JoinE vals with
  | none => none
  | some e => some (.stack e st)

/-- The non-nil converted arguments, in order, with the tags `joinGo`
assigns: the conversion/elision part of `Join`'s loop. -/
def convertGo (i : Nat) : List (Option Val) → List Err
  | [] => []
  | none :: rest => convertGo (i + 1) rest
  | some v :: rest => toError i v :: convertGo (i + 1) rest

/-- `StackTrace` in `stacktrace.go`: starting from `var callers Callers`
(nil), walk the error: a node with a `StackTrace() Callers` method
(only `withStackTrace` has one) overwrites the accumulator; a node with
an `Unwrap() error` method continues the walk on its next error; any
other node stops it.  The traversal therefore keeps the trace of the
last stack-carrying node of the primary unwrap chain, and never
descends into a `multiError`'s children or a `withWrapper`'s wrapper. -/
def stackTraceAux : Err → Option Callers → Option Callers
  | .stack n st, _ => stackTraceAux n (some st)
  | .wrap _ n _, acc => stackTraceAux n acc
  | .value n _ _, acc => stackTraceAux n acc
  | .msg _ _, acc => acc
  | .multi _, acc => acc

/-- `StackTrace(err)` for a possibly-nil `err`; `none` models the nil
`Callers` result. -/
def StackTraceE : Option Err → Option Callers
  | none => none
  | some e => stackTraceAux e none

/-- `WithStackTrace` in `stacktrace.go`: nil stays nil, otherwise wrap
in a `withStackTrace` with the captured stack. -/
def WithStackTraceE (st : Callers) : Option Err → Option Err
  | none => none
  | some e => some (.stack e st)

/-- The initial `me` list of `Append` in `multierror.go`: nil
contributes nothing, an existing `multiError` is taken over as the
starting list, any other error becomes a one-element list. -/
def appendBase : Option Err → List Err
  | none => []
  | some (.multi cs) => cs
  | some e => [e]

/-- `Append` in `multierror.go`: build `me` from the first argument,
append every non-nil variadic error, then switch on `len(me)`:
0 → nil, 1 → `me[0]`, otherwise the `multiError` itself. -/
def AppendE (err : Option Err) (errs : List (Option Err)) : Option Err :=
  let me := errs.foldl
    (fun me oe =>
      match oe with
      | none => me
      | some e => me ++ [e])
    (appendBase err)
  match me with
  | [] => none
  | [e] => some e
  | l => some (.multi l)

/-- `WithValue` in `value.go`: nil stays nil, otherwise wrap in a
`value` node carrying the key/value pair. -/
def WithValueE (err : Option Err) (k v : String) : Option Err :=
  match err with
  | none => none
  | some e => some (.value e k v)

/-- The loop of `Values` in `value.go`: walk the chain from the head
with `errors.Unwrap`; at each `*value` node take its key/value pair
unless the key is already present in the collected map.  The map is
modelled as an association list in insertion order; a key therefore
keeps the value of the node closest to the chain head. -/
def valuesLoop (e : Err) (acc : List (String × String)) : List (String × String) :=
  let acc :=
    match e with
    | .value _ k v => if acc.any (fun p => p.1 == k) then acc else acc ++ [(k, v)]
    | _ => acc
  match e with
  | .wrap _ n _ => valuesLoop n acc
  | .stack n _ => valuesLoop n acc
  | .value n _ _ => valuesLoop n acc
  | .msg _ _ => acc
  | .multi _ => acc

/-- `Values(err)`: the collected key/value map (`err` nil gives the
empty map, since the loop guard fails at once). -/
def ValuesE : Option Err → List (String × String)
  | none => []
  | some e => valuesLoop e []

/-- Looking a key up in the collected map. -/
def valuesGet (l : List (String × String)) (k : String) : Option String :=
  (l.find? (fun p => p.1 == k)).map (·.2)

/-- The shape of `fmt.Errorf`'s result, as `Joinf` dispatches on it
(`xerrors.go`):
  * no `%w` verb → the result has no `Unwrap` method;
  * exactly one `%w` verb with an error operand → the result has an
    `Unwrap() error` method returning that operand;
  * two or more `%w` verbs (Go 1.20) → the result has an
    `Unwrap() []error` method returning the operands, of which there
    are at least two and none nil. -/
inductive ErrorfShape where
  | noWrap
  | single (e : Err)
  | multiWrap (e1 e2 : Err) (rest : List Err)

/-- `Joinf` in `xerrors.go`, given the formatted message `msg`
(`err.Error()` of the `fmt.Errorf` result) and the wrap shape:
  * `Unwrap() error` case: `&withWrapper{err: wrapped, msg: msg}`;
  * `Unwrap() []error` case: run the same backward-chaining loop as
    `Join` over the wrapped errors, then overwrite the resulting
    `withWrapper`'s message with `msg` (with at least two wrapped
    errors the loop always yields a `withWrapper`);
  * default: `&messageError{msg: msg}`, a fresh allocation tagged
    `tag`. -/
def joinfChain : Err → List Err → Err
  | e, [] => e
  | e, f :: fs => .wrap (some e) (joinfChain f fs) ""

def JoinfE (tag : Nat) (msg : String) : ErrorfShape → Err
  | .noWrap => .msg tag msg
  | .single e => .wrap none e msg
  | .multiWrap e1 e2 rest =>
    match joinfChain e1 (e2 :: rest) with
    | .wrap w n _ => .wrap w n msg
    | other => .wrap none other msg

/-- `Newf` in `xerrors.go`: `Joinf` wrapped in a `withStackTrace`
carrying the stack captured at the call site. -/
def NewfE (st : Callers) (tag : Nat) (msg : String) (shape : ErrorfShape) : Err :=
  .stack (JoinfE tag msg shape) st

mutual

/-- Go's `errors.Is(err, target)` over the package's node types.  Each
loop iteration (1) compares `err == target` when the target's type is
comparable (`multiError` is a slice type, hence not comparable, and a
slice never compares equal to a value of another type), (2) consults a
custom `Is` method — `withWrapper.Is` reports `errors.Is` on the
wrapper or on the next error (`wrapper.go`), `multiError.Is` reports
`errors.Is` on any child (`multierror.go`) — and (3) follows
`Unwrap() error`, or tries every child of an `Unwrap() []error` node. -/
def errsIs (e t : Err) : Bool :=
  (!isMultiE t && beqErr e t) ||
  (match e with
   | .wrap w n _ =>
     (match w with
      | some we => errsIs we t
      | none => false) || errsIs n t
   | .multi cs => errsIsList cs t
   | _ => false) ||
  (match e with
   | .wrap _ n _ => errsIs n t
   | .stack n _ => errsIs n t
   | .value n _ _ => errsIs n t
   | .multi cs => errsIsList cs t
   | .msg _ _ => false)

def errsIsList (cs : List Err) (t : Err) : Bool :=
  match cs with
  | [] => false
  | c :: rest => errsIs c t || errsIsList rest t

end

/-- `shortname` in `stacktrace.go`: the part of the function name after
the last `/` (the whole name when there is none). -/
def shortname (name : String) : String :=
  match (name.splitOn "/").getLast? with
  | some s => s
  | none => name

/-- `Frame.writeFrame` in `stacktrace.go`:
`"\tat " + shortname(fn) + " (" + file + ":" + line + ")"`. -/
def frameString (f : Frame) : String :=
  "\tat " ++ shortname f.fn ++ " (" ++ f.file ++ ":" ++ toString f.line ++ ")"

/-- `Callers.writeTrace`/`Callers.String` in `stacktrace.go`: each frame
on its own line. -/
def callersString (c : Callers) : String :=
  String.join (c.map (fun f => frameString f ++ "\n"))

/-- `indent` in `format.go`: indent every line except the first with a
tab (temporarily stripping a trailing newline so it is not indented). -/
def indentS (s : String) : String :=
  let nl := s.endsWith "\n"
  let s' := if nl then s.dropRight 1 else s
  let s'' := s'.replace "\n" "\n\t"
  if nl then s'' ++ "\n" else s''

/-- Which node types implement the details interface probed by
`writeErr` in `format.go`: `withWrapper` (`ErrorDetails` in
`wrapper.go`), `withStackTrace` (`stacktrace.go`) and `multiError`
(`multierror.go`); `messageError` and `value` provide no details. -/
def hasDetailsE : Err → Bool
  | .wrap _ _ _ => true
  | .stack _ _ => true
  | .multi _ => true
  | _ => false

/-- One loop iteration of `writeErr` in `format.go`, given the node's
details `d` and message `msg`: a node with non-empty details is
rendered as `prefix + msg + "\n\t" + indent(d)` (a newline is appended
when `d` does not end in one); a node without details is rendered as
`prefix + msg + "\n"` but only when it is the first of the chain.  The
prefix is `"Error: "` for the first node, `"Previous error: "` for
every later one. -/
def writeHead (d msg : String) (first : Bool) : String :=
  if d ≠ "" then
    (if first then "Error: " else "Previous error: ") ++ msg ++ "\n\t" ++
      indentS d ++
      (if d.endsWith "\n" then "" else "\n")
  else
    if first then "Error: " ++ msg ++ "\n" else ""

mutual

/-- `writeErr` in `format.go`: the current node's head line(s) followed
by the rendering of the rest of the chain; the loop follows
`Unwrap() error` links only, with `first` false from the second node
on. -/
def writeErr (e : Err) (first : Bool) : String :=
  writeHead (detailsOf e) (errString e) first ++
  (match e with
   | .wrap _ n _ => writeErr n false
   | .stack n _ => writeErr n false
   | .value n _ _ => writeErr n false
   | _ => "")
termination_by (sizeOf e, 2)

/-- The details string `writeErr`'s interface probe obtains from each
node (empty for nodes that implement no details method):
  * `withWrapper.ErrorDetails` (`wrapper.go`) searches the wrapper's
    chain for the first node with details;
  * `withStackTrace.ErrorDetails` (`stacktrace.go`) renders the stack;
  * `multiError.ErrorDetails` (`multierror.go`) is empty for an empty
    list, else the children rendered by `writeErr`, numbered from 1. -/
def detailsOf : Err → String
  | .wrap w _ _ => wrapDetails w
  | .stack _ st => callersString st
  | .multi cs => if cs.isEmpty then "" else multiDetails 1 cs
  | .msg _ _ => ""
  | .value _ _ _ => ""
termination_by e => (sizeOf e, 1)

/-- The loop of `withWrapper.ErrorDetails`: starting at the wrapper
(nil gives `""`), return the details of the first node implementing
the details interface, following `Unwrap() error` links otherwise. -/
def wrapDetails : Option Err → String
  | none => ""
  | some e =>
    if hasDetailsE e then detailsOf e
    else
      match e with
      | .value n _ _ => wrapDetails (some n)
      | _ => ""
termination_by o => (sizeOf o, 0)

/-- The loop of `multiError.ErrorDetails`: `n`. then the child rendered
by `writeErr` (first-node rendering), for each child. -/
def multiDetails (n : Nat) : List Err → String
  | [] => ""
  | c :: rest => toString n ++ ". " ++ writeErr c true ++ multiDetails (n + 1) rest
termination_by cs => (sizeOf cs, 2)

end

/-- `Sprint` in `format.go`: render the error into a fresh buffer (a
nil error renders as the empty string, since `writeErr`'s loop guard
fails immediately). -/
def SprintE : Option Err → String
  | none => ""
  | some e => writeErr e true

/-- `Print` in `format.go` writes exactly the `Sprint` rendering to the
configured writer; the model exposes the written string. -/
def PrintE (e : Option Err) : String := SprintE e

/-- `Fprint` in `format.go` writes the `Sprint` rendering to the given
writer and returns the number of bytes written. -/
def FprintLen (e : Option Err) : Nat := (SprintE e).utf8ByteSize

/-! Specification-side helper definitions, used to state the claims. -/

/-- The `": "`-separated concatenation of a list of messages, as the
specification describes the message of a chain. -/
def sepConcat : List String → String
  | [] => ""
  | [s] => s
  | s :: rest => s ++ ": " ++ sepConcat rest

/-- The zero/one/many collapse rule the specification gives for
aggregation: no error → nil, one error → that error itself, otherwise
the `multiError` of the whole list. -/
def collapseE : List Err → Option Err
  | [] => none
  | [e] => some e
  | l => some (.multi l)

/-- Spec-side description of the stack query: the stack of the last
stack-carrying node found walking only the primary unwrap chain
(`none` when the chain has no stack node, and a `multiError`'s children
and a `withWrapper`'s wrapper are never entered). -/
def specLastStack : Err → Option Callers
  | .stack n st => (specLastStack n).or (some st)
  | .wrap _ n _ => specLastStack n
  | .value n _ _ => specLastStack n
  | .msg _ _ => none
  | .multi _ => none

/-- Spec-side description of the value query for one key: the value of
the first `value` node with that key met walking the primary unwrap
chain from the head — "the one closest to the chain head wins". -/
def specFirstValue (k : String) : Err → Option String
  | .value n k' v => if k' == k then some v else specFirstValue k n
  | .wrap _ n _ => specFirstValue k n
  | .stack n _ => specFirstValue k n
  | .msg _ _ => none
  | .multi _ => none

/-- A chain with two stack-carrying nodes, used to exercise
`StackTrace` on a chain where the first and the last stack differ. -/
def twoStackChain : Err :=
  .stack (.stack (.msg 0 "x") [⟨"inner.go", 2, "innerFn"⟩]) [⟨"outer.go", 1, "outerFn"⟩]

/-! Lemmas about `Join`'s loop. -/

theorem joinGo_none_iff : ∀ (i : Nat) (vals : List (Option Val)),
    joinGo i vals = none ↔ convertGo i vals = []
  | _, [] => by simp [joinGo, convertGo]
  | i, none :: rest => by
    simpa [joinGo, convertGo] using joinGo_none_iff (i + 1) rest
  | i, some v :: rest => by
    simp only [joinGo, convertGo]
    cases joinGo (i + 1) rest <;> simp

theorem convertGo_nil_iff : ∀ (i : Nat) (vals : List (Option Val)),
    convertGo i vals = [] ↔ ∀ v ∈ vals, v = none
  | _, [] => by simp [convertGo]
  | i, none :: rest => by
    simpa [convertGo] using convertGo_nil_iff (i + 1) rest
  | i, some v :: rest => by simp [convertGo]

theorem sepConcat_cons (s : String) (l : List String) (h : l ≠ []) :
    sepConcat (s :: l) = s ++ ": " ++ sepConcat l := by
  match l with
  | [] => exact absurd rfl h
  | t :: rest => rfl

theorem joinGo_errString : ∀ (i : Nat) (vals : List (Option Val)) (c : Err),
    joinGo i vals = some c →
    errString c = sepConcat ((convertGo i vals).map errString)
  | _, [], c => by simp [joinGo]
  | i, none :: rest, c => by
    simpa [joinGo, convertGo] using joinGo_errString (i + 1) rest c
  | i, some v :: rest, c => by
    simp only [joinGo, convertGo]
    intro h
    match hacc : joinGo (i + 1) rest with
    | none =>
      rw [hacc] at h
      cases h
      have hempty : convertGo (i + 1) rest = [] := (joinGo_none_iff _ _).mp hacc
      simp [hempty, sepConcat]
    | some w =>
      rw [hacc] at h
      cases h
      have hne : convertGo (i + 1) rest ≠ [] := by
        intro hc
        rw [(joinGo_none_iff (i + 1) rest).mpr hc] at hacc
        cases hacc
      have ih := joinGo_errString (i + 1) rest w hacc
      rw [List.map_cons, sepConcat_cons _ _ (by simpa using hne), ← ih]
      simp [errString]

/-- C1: the `Error()` string of an error built by `New` or `Join` is
the `": "`-separated concatenation of the messages of the non-nil
converted inputs, first input outermost; in particular
`New("a","b").Error() == "a: b"`, `New(nil,"a","b").Error() == "a: b"`,
and `New(e1).Error() == e1.Error()` for every non-nil error `e1`. -/
theorem c1_error_message_concatenation :
    (∀ vals c, JoinE vals = some c →
      errString c = sepConcat ((convertGo 0 vals).map errString)) ∧
    (∀ st vals c, NewE st vals = some c →
      errString c = sepConcat ((convertGo 0 vals).map errString)) ∧
    (∀ st, errStringO (NewE st [some (.str "a"), some (.str "b")]) = some "a: b") ∧
    (∀ st, errStringO (NewE st [none, some (.str "a"), some (.str "b")]) = some "a: b") ∧
    (∀ st e1, errStringO (NewE st [some (.err e1)]) = some (errString e1)) := by
  refine ⟨fun vals c h => joinGo_errString 0 vals c h, fun st vals c h => ?_, ?_, ?_, ?_⟩
  · unfold NewE at h
    match hj : JoinE vals with
    | none => rw [hj] at h; cases h
    | some e =>
      rw [hj] at h
      cases h
      simpa [errString] using joinGo_errString 0 vals e hj
  · intro st
    simp [NewE, JoinE, joinGo, toError, errStringO, errString]
  · intro st
    simp [NewE, JoinE, joinGo, toError, errStringO, errString]
  · intro st e1
    simp [NewE, JoinE, joinGo, toError, errStringO, errString]

/-- Witness for C1 at concrete inputs. -/
theorem c1_witness :
    errString (.msg 0 "a") = sepConcat ((convertGo 0 [some (.str "a")]).map errString) ∧
    errString (.stack (.msg 0 "a") []) =
      sepConcat ((convertGo 0 [some (.str "a")]).map errString) :=
  ⟨c1_error_message_concatenation.1 [some (.str "a")] (.msg 0 "a") rfl,
   c1_error_message_concatenation.2.1 [] [some (.str "a")] (.stack (.msg 0 "a") []) rfl⟩

/-- C2: `New` and `Join` skip nil values; with no non-nil value left
they return nil (`New()`, `New(nil)`, `New(nil,nil)` are all nil), and
with at least one non-nil value left the result is non-nil. -/
theorem c2_nil_elision :
    (∀ vals, (∀ v ∈ vals, v = none) →
      JoinE vals = none ∧ ∀ st, NewE st vals = none) ∧
    (∀ vals v, v ∈ vals → v ≠ none →
      JoinE vals ≠ none ∧ ∀ st, NewE st vals ≠ none) ∧
    JoinE [] = none ∧
    (∀ st, NewE st [] = none ∧ NewE st [none] = none ∧ NewE st [none, none] = none) := by
  have hjoin : ∀ vals, (∀ v ∈ vals, v = none) → JoinE vals = none := fun vals h =>
    (joinGo_none_iff 0 vals).mpr ((convertGo_nil_iff 0 vals).mpr h)
  refine ⟨fun vals h => ⟨hjoin vals h, fun st => ?_⟩, fun vals v hv hne => ?_, ?_, ?_⟩
  · unfold NewE
    rw [hjoin vals h]
  · have hds : JoinE vals ≠ none := by
      intro hn
      exact hne (((convertGo_nil_iff 0 vals).mp ((joinGo_none_iff 0 vals).mp hn)) v hv)
    refine ⟨hds, fun st => ?_⟩
    unfold NewE
    match hj : JoinE vals with
    | none => exact absurd hj hds
    | some e => simp
  · rfl
  · intro st
    refine ⟨?_, ?_, ?_⟩ <;> simp [NewE, JoinE, joinGo]

/-- Witness for C2 at concrete inputs. -/
theorem c2_witness :
    (JoinE [none] = none ∧ ∀ st, NewE st [none] = none) ∧
    (JoinE [some (.str "a")] ≠ none ∧ ∀ st, NewE st [some (.str "a")] ≠ none) :=
  ⟨c2_nil_elision.1 [none] (by simp),
   c2_nil_elision.2.1 [some (.str "a")] (some (.str "a")) (by simp) (by simp)⟩

theorem stackTraceAux_or : ∀ (e : Err) (acc : Option Callers),
    stackTraceAux e acc = (specLastStack e).or acc
  | .msg _ _, acc => by simp [stackTraceAux, specLastStack]
  | .multi _, acc => by simp [stackTraceAux, specLastStack]
  | .wrap w n m, acc => by
    simpa [stackTraceAux, specLastStack] using stackTraceAux_or n acc
  | .value n k v, acc => by
    simpa [stackTraceAux, specLastStack] using stackTraceAux_or n acc
  | .stack n st, acc => by
    simp only [stackTraceAux, specLastStack, stackTraceAux_or n (some st)]
    rw [Option.or_assoc]
    simp

/-- C5 counterexample: on a chain with two stack-carrying nodes,
`StackTrace` returns the trace of the inner (last) one, not the trace
of the first stack-carrying node met from the chain head. -/
theorem c5_counterexample :
    StackTraceE (some twoStackChain) = some [⟨"inner.go", 2, "innerFn"⟩] ∧
    StackTraceE (some twoStackChain) ≠ some [⟨"outer.go", 1, "outerFn"⟩] := by
  constructor
  · rfl
  · decide

/-- C5 (amended): `StackTrace(err)` returns the trace of the last
stack-carrying node found walking only the primary `Unwrap` chain
(never descending into a `multiError`'s children or a `withWrapper`'s
wrapper); for an error whose chain has no stack-carrying node, such as
`Message("x")` or any `multiError`, it returns the absent trace, and a
nil error also yields the absent trace. -/
theorem c5_stacktrace_last :
    (∀ e, StackTraceE (some e) = specLastStack e) ∧
    (∀ tag s, StackTraceE (some (.msg tag s)) = none) ∧
    (∀ cs, StackTraceE (some (.multi cs)) = none) ∧
    StackTraceE none = none := by
  refine ⟨fun e => ?_, fun tag s => rfl, fun cs => rfl, rfl⟩
  simpa using stackTraceAux_or e none

theorem appendFold : ∀ (errs : List (Option Err)) (me : List Err),
    errs.foldl
      (fun me oe =>
        match oe with
        | none => me
        | some e => me ++ [e]) me = me ++ errs.filterMap id
  | [], me => by simp
  | none :: rest, me => by simpa using appendFold rest me
  | some e :: rest, me => by
    simpa [List.append_assoc] using appendFold rest (me ++ [e])

theorem AppendE_eq (err : Option Err) (errs : List (Option Err)) :
    AppendE err errs = collapseE (appendBase err ++ errs.filterMap id) := by
  unfold AppendE collapseE
  rw [appendFold]

/-- C3: `Append` ignores nil errors, flattens an existing `multiError`
by extending its child list rather than nesting, returns nil when no
error remains, returns the single error itself (unwrapped from any
multi-error) when exactly one remains, and never attaches a stack
trace: any stack trace obtainable from the result was already
obtainable from one of the (flattened) inputs. -/
theorem c3_append_shape :
    (∀ err errs, AppendE err errs = AppendE err ((errs.filterMap id).map some)) ∧
    (∀ cs errs, AppendE (some (.multi cs)) errs = collapseE (cs ++ errs.filterMap id)) ∧
    (∀ errs, (∀ x ∈ errs, x = none) → AppendE none errs = none) ∧
    (∀ a, AppendE none [some a] = some a) ∧
    (∀ e, isMultiE e = false → AppendE (some e) [] = some e) ∧
    (∀ err errs, StackTraceE (AppendE err errs) = none ∨
      ∃ e ∈ appendBase err ++ errs.filterMap id, AppendE err errs = some e) := by
  refine ⟨fun err errs => ?_, fun cs errs => ?_, fun errs h => ?_, fun a => rfl,
    fun e he => ?_, fun err errs => ?_⟩
  · rw [AppendE_eq, AppendE_eq, List.filterMap_map]
    simp [Function.comp_def, List.filterMap_some]
  · rw [AppendE_eq]
    rfl
  · rw [AppendE_eq]
    have : errs.filterMap id = [] := by
      rw [List.filterMap_eq_nil_iff]
      intro x hx
      rw [h x hx]
      rfl
    simp [this, appendBase, collapseE]
  · rw [AppendE_eq]
    cases e <;> simp_all [appendBase, collapseE, isMultiE]
  · rw [AppendE_eq]
    match h : appendBase err ++ errs.filterMap id with
    | [] => exact Or.inl rfl
    | [e] => exact Or.inr ⟨e, by simp [h], rfl⟩
    | e :: f :: rest => exact Or.inl rfl

/-- Witness for C3 at concrete inputs. -/
theorem c3_witness :
    AppendE none [none] = none ∧
    AppendE (some (.msg 0 "a")) [] = some (.msg 0 "a") :=
  ⟨c3_append_shape.2.2.1 [none] (by simp),
   c3_append_shape.2.2.2.2.1 (.msg 0 "a") rfl⟩

/-- C4: the `multiError.Error` method in `multierror.go` renders only
the bracketed child list, without the `"the following errors
occurred: "` prefix that the package's own tests (`multierror_test.go`)
require of exactly this expression — evaluating the code at the
claim's example shows the divergence. -/
theorem c4_multi_error_missing_prefix :
    errStringO (AppendE none [some (.msg 1 "a"), some (.msg 2 "b")]) = some "[a, b]" ∧
    "[a, b]" ≠ "the following errors occurred: [a, b]" := by
  constructor
  · rfl
  · decide

/-- C6 counterexample, refuting the claim at two concrete inputs:
(i) for `Newf` with exactly one wrap placeholder, `Unwrap()` yields
the intermediate `withWrapper` node (whose own `Unwrap()` yields the
wrapped error), not the wrapped error itself, since `Newf` adds a
`withStackTrace` layer around the `Joinf` result; (ii) with multiple
wrap placeholders and an empty formatted string (two wrapped errors
whose messages are both empty, back to back), assigning the override
leaves it indistinguishable from unset, so the result renders the
chain's default `": "`-concatenation — here `": "` — and not the
fully formatted string `""`. -/
theorem c6_counterexample :
    unwrapE (NewfE [] 1 "wrapped error: first error" (.single (.msg 0 "first error"))) ≠
      some (.msg 0 "first error") ∧
    errString (JoinfE 0 "" (.multiWrap (.msg 1 "") (.msg 2 "") [])) = ": " ∧
    (": " : String) ≠ "" := by
  refine ⟨?_, rfl, ?_⟩
  · simp [NewfE, JoinfE, unwrapE]
  · decide

/-- C6 (amended): for `Joinf` with exactly one wrap placeholder,
`Unwrap()` yields the single wrapped error (not a list); for `Newf`,
`Unwrap()` yields the formatted wrapper node, whose `Unwrap()` yields
the single wrapped error.  With multiple wrap placeholders the result
is the right-associated linear chain of the wrapped errors (each link
unwrapping to the next), with the rendered message overridden to the
fully formatted string (when that string is non-empty). -/
theorem c6_joinf_unwrap :
    (∀ tag msg e, unwrapE (JoinfE tag msg (.single e)) = some e) ∧
    (∀ st tag msg e, unwrapE (NewfE st tag msg (.single e)) = some (.wrap none e msg) ∧
      unwrapE (.wrap none e msg) = some e) ∧
    (∀ tag msg e1 e2 rest,
      JoinfE tag msg (.multiWrap e1 e2 rest) = .wrap (some e1) (joinfChain e2 rest) msg) ∧
    (∀ e f fs, unwrapE (joinfChain e (f :: fs)) = some (joinfChain f fs)) ∧
    (∀ tag msg e1 e2 rest, msg ≠ "" →
      errString (JoinfE tag msg (.multiWrap e1 e2 rest)) = msg ∧
      ∀ st, errString (NewfE st tag msg (.multiWrap e1 e2 rest)) = msg) := by
  refine ⟨fun tag msg e => rfl, fun st tag msg e => ⟨rfl, rfl⟩,
    fun tag msg e1 e2 rest => rfl, fun e f fs => rfl, fun tag msg e1 e2 rest h => ?_⟩
  constructor
  · simp [JoinfE, joinfChain, errString, h]
  · intro st
    simp [NewfE, JoinfE, joinfChain, errString, h]

/-- Witness for C6's amended theorem at concrete inputs. -/
theorem c6_witness :
    errString (JoinfE 0 "m" (.multiWrap (.msg 1 "a") (.msg 2 "b") [])) = "m" :=
  (c6_joinf_unwrap.2.2.2.2 0 "m" (.msg 1 "a") (.msg 2 "b") [] (by decide)).1

mutual

theorem beqErr_refl : ∀ e : Err, beqErr e e = true
  | .msg t s => by simp [beqErr]
  | .wrap w n m => by simp [beqErr, beqErr_refl n, beqOptErr_refl w]
  | .stack n st => by simp [beqErr, beqErr_refl n]
  | .multi cs => by simp [beqErr, beqErrList_refl cs]
  | .value n k v => by simp [beqErr, beqErr_refl n]

theorem beqOptErr_refl : ∀ o : Option Err, beqOptErr o o = true
  | none => by simp [beqOptErr]
  | some e => by simp [beqOptErr, beqErr_refl e]

theorem beqErrList_refl : ∀ l : List Err, beqErrList l l = true
  | [] => by simp [beqErrList]
  | e :: rest => by simp [beqErrList, beqErr_refl e, beqErrList_refl rest]

end

theorem errsIsList_of_mem : ∀ (cs : List Err) (c t : Err), c ∈ cs →
    errsIs c t = true → errsIsList cs t = true
  | [], c, t, h, _ => by cases h
  | x :: rest, c, t, h, hIs => by
    rcases List.mem_cons.mp h with h | h
    · subst h
      simp [errsIsList, hIs]
    · simp [errsIsList, errsIsList_of_mem rest c t h hIs]

/-- C7: the identity query (`errors.Is` over the package's `Is`
methods) succeeds if the node itself equals a comparable target, if
the `withWrapper`'s wrapper matches, if any `multiError` child
matches, or if a node further down the primary unwrap chain matches;
for the multi-error `Append` builds from `[a, b]`, `Is` holds for `a`
and for `b` and fails for an unrelated `c`. -/
theorem c7_is_traversal :
    (∀ e t, isMultiE t = false → e = t → errsIs e t = true) ∧
    (∀ w n m t, errsIs w t = true → errsIs (.wrap (some w) n m) t = true) ∧
    (∀ cs c t, c ∈ cs → errsIs c t = true → errsIs (.multi cs) t = true) ∧
    (∀ e n t, unwrapE e = some n → errsIs n t = true → errsIs e t = true) ∧
    (AppendE none [some (.msg 1 "a"), some (.msg 2 "b")] =
       some (.multi [.msg 1 "a", .msg 2 "b"]) ∧
     errsIs (.multi [.msg 1 "a", .msg 2 "b"]) (.msg 1 "a") = true ∧
     errsIs (.multi [.msg 1 "a", .msg 2 "b"]) (.msg 2 "b") = true ∧
     errsIs (.multi [.msg 1 "a", .msg 2 "b"]) (.msg 3 "c") = false) := by
  refine ⟨fun e t hm he => ?_, fun w n m t h => ?_, fun cs c t hc h => ?_,
    fun e n t hu h => ?_, rfl, by decide, by decide, by decide⟩
  · subst he
    cases e <;> rw [errsIs.eq_def] <;> simp [isMultiE, beqErr_refl] at hm ⊢
  · simp [errsIs, h]
  · have hl := errsIsList_of_mem cs c t hc h
    simp [errsIs, hl]
  · cases e <;> simp [unwrapE] at hu
    all_goals subst hu
    all_goals rw [errsIs.eq_def]
    all_goals simp [h]

/-- Witness for C7 at concrete inputs. -/
theorem c7_witness :
    errsIs (.msg 0 "z") (.msg 0 "z") = true ∧
    errsIs (.wrap (some (.msg 0 "z")) (.msg 1 "y") "") (.msg 0 "z") = true :=
  ⟨c7_is_traversal.1 (.msg 0 "z") (.msg 0 "z") (by decide) rfl,
   c7_is_traversal.2.1 (.msg 0 "z") (.msg 1 "y") "" (.msg 0 "z")
     (c7_is_traversal.1 (.msg 0 "z") (.msg 0 "z") (by decide) rfl)⟩

theorem valuesGet_append (l1 l2 : List (String × String)) (k : String) :
    valuesGet (l1 ++ l2) k = (valuesGet l1 k).or (valuesGet l2 k) := by
  unfold valuesGet
  rw [List.find?_append]
  cases l1.find? (fun p => p.1 == k) <;> simp

theorem any_key_eq_find?_isSome (acc : List (String × String)) (k : String) :
    acc.any (fun p => p.1 == k) = (valuesGet acc k).isSome := by
  induction acc with
  | nil => rfl
  | cons p rest ih =>
    cases hb : (p.1 == k) <;> simp [List.any_cons, List.find?, hb, ih, valuesGet]

theorem valuesLoop_get : ∀ (e : Err) (acc : List (String × String)) (k : String),
    valuesGet (valuesLoop e acc) k = (valuesGet acc k).or (specFirstValue k e)
  | .msg t s, acc, k => by simp [valuesLoop, specFirstValue]
  | .multi cs, acc, k => by simp [valuesLoop, specFirstValue]
  | .wrap w n m, acc, k => by
    simpa [valuesLoop, specFirstValue] using valuesLoop_get n acc k
  | .stack n st, acc, k => by
    simpa [valuesLoop, specFirstValue] using valuesLoop_get n acc k
  | .value n k' v, acc, k => by
    rw [valuesLoop.eq_def]
    simp only [specFirstValue]
    by_cases hany : acc.any (fun p => p.1 == k') = true
    · rw [if_pos hany, valuesLoop_get n acc k]
      by_cases hk : k' == k
      · have hks : k' = k := by simpa using hk
        subst hks
        rw [any_key_eq_find?_isSome] at hany
        match hv : valuesGet acc k' with
        | some w => simp [hk, Option.or]
        | none => rw [hv] at hany; cases hany
      · simp [hk]
    · rw [if_neg hany, valuesLoop_get n (acc ++ [(k', v)]) k,
        valuesGet_append, Option.or_assoc]
      by_cases hk : k' == k
      · simp [valuesGet, List.find?, hk, Option.or]
      · simp [valuesGet, List.find?, hk]

/-- C8: `Values` returns, for each key, the value of the `value`
annotation closest to the chain head (the outermost, most recently
applied one): looking a key up in the collected map gives exactly the
first value for that key met walking the primary unwrap chain from the
head, and on the chain carrying `"test" -> "1"` wrapped by
`"test" -> "2"` the map holds only the outer `"2"`. -/
theorem c8_values_outermost_wins :
    (∀ e k, valuesGet (ValuesE (some e)) k = specFirstValue k e) ∧
    ValuesE (WithValueE (WithValueE (some (.msg 0 "error")) "test" "1") "test" "2") =
      [("test", "2")] := by
  refine ⟨fun e k => ?_, rfl⟩
  have h := valuesLoop_get e [] k
  simpa [ValuesE, valuesGet] using h

theorem append_empty_or_newline {a b : String}
    (ha : a = "" ∨ ∃ s, a = s ++ "\n") (hb : b = "" ∨ ∃ s, b = s ++ "\n") :
    a ++ b = "" ∨ ∃ s, a ++ b = s ++ "\n" := by
  rcases hb with hb | ⟨s, hb⟩
  · subst hb
    rw [String.append_empty]
    exact ha
  · subst hb
    exact Or.inr ⟨a ++ s, (String.append_assoc a s "\n").symm⟩

theorem writeErr_eq : ∀ (e : Err) (f : Bool),
    writeErr e f = writeHead (detailsOf e) (errString e) f ++
      (match unwrapE e with
       | some n => writeErr n false
       | none => "") := by
  intro e f
  cases e <;> (rw [writeErr.eq_def]; rfl)

theorem writeHead_newline (d msg : String) (f : Bool) :
    writeHead d msg f = "" ∨ ∃ s, writeHead d msg f = s ++ "\n" := by
  unfold writeHead
  by_cases hd : d = ""
  · simp only [hd, ne_eq, not_true_eq_false, if_false]
    cases f
    · simp
    · exact Or.inr ⟨"Error: " ++ msg, by simp⟩
  · rw [if_pos hd]
    by_cases hnl : d.endsWith "\n"
    · refine Or.inr ⟨(if f then "Error: " else "Previous error: ") ++ msg ++ "\n\t" ++
        ((d.dropRight 1).replace "\n" "\n\t"), ?_⟩
      simp [indentS, hnl, String.append_assoc]
    · exact Or.inr ⟨(if f then "Error: " else "Previous error: ") ++ msg ++ "\n\t" ++
        indentS d, by simp [hnl]⟩

theorem writeHead_true_newline (d msg : String) :
    ∃ s, writeHead d msg true = s ++ "\n" := by
  unfold writeHead
  by_cases hd : d = ""
  · simp only [hd, ne_eq, not_true_eq_false, if_false, if_true]
    exact ⟨"Error: " ++ msg, rfl⟩
  · rw [if_pos hd]
    by_cases hnl : d.endsWith "\n"
    · refine ⟨"Error: " ++ msg ++ "\n\t" ++ ((d.dropRight 1).replace "\n" "\n\t"), ?_⟩
      simp [indentS, hnl, String.append_assoc]
    · exact ⟨"Error: " ++ msg ++ "\n\t" ++ indentS d, by simp [hnl]⟩

theorem append_newline_left {a b : String} (ha : ∃ s, a = s ++ "\n")
    (hb : b = "" ∨ ∃ s, b = s ++ "\n") : ∃ s, a ++ b = s ++ "\n" := by
  rcases hb with hb | ⟨t, hb⟩
  · subst hb
    rw [String.append_empty]
    exact ha
  · subst hb
    exact ⟨a ++ t, (String.append_assoc _ _ _).symm⟩

theorem writeErr_newline : ∀ (e : Err) (f : Bool),
    writeErr e f = "" ∨ ∃ s, writeErr e f = s ++ "\n"
  | .msg t s, f => by
    rw [writeErr_eq]
    exact append_empty_or_newline (writeHead_newline _ _ _) (Or.inl rfl)
  | .multi cs, f => by
    rw [writeErr_eq]
    exact append_empty_or_newline (writeHead_newline _ _ _) (Or.inl rfl)
  | .wrap w n m, f => by
    rw [writeErr_eq]
    exact append_empty_or_newline (writeHead_newline _ _ _) (writeErr_newline n false)
  | .stack n st, f => by
    rw [writeErr_eq]
    exact append_empty_or_newline (writeHead_newline _ _ _) (writeErr_newline n false)
  | .value n k v, f => by
    rw [writeErr_eq]
    exact append_empty_or_newline (writeHead_newline _ _ _) (writeErr_newline n false)

theorem writeErr_true_newline : ∀ e : Err, ∃ s, writeErr e true = s ++ "\n"
  | .msg t s => by
    rw [writeErr_eq]
    exact append_newline_left (writeHead_true_newline _ _) (Or.inl rfl)
  | .multi cs => by
    rw [writeErr_eq]
    exact append_newline_left (writeHead_true_newline _ _) (Or.inl rfl)
  | .wrap w n m => by
    rw [writeErr_eq]
    exact append_newline_left (writeHead_true_newline _ _) (writeErr_newline n false)
  | .stack n st => by
    rw [writeErr_eq]
    exact append_newline_left (writeHead_true_newline _ _) (writeErr_newline n false)
  | .value n k v => by
    rw [writeErr_eq]
    exact append_newline_left (writeHead_true_newline _ _) (writeErr_newline n false)

theorem writeHead_error_prefix (d msg : String) :
    ∃ t, writeHead d msg true = "Error: " ++ t := by
  unfold writeHead
  by_cases hd : d = ""
  · simp only [hd, ne_eq, not_true_eq_false, if_false, if_true]
    exact ⟨msg ++ "\n", by simp [String.append_assoc]⟩
  · rw [if_pos hd]
    exact ⟨msg ++ ("\n\t" ++ (indentS d ++ (if d.endsWith "\n" then "" else "\n"))),
      by simp [String.append_assoc]⟩

theorem writeHead_prev_prefix (d msg : String) :
    writeHead d msg false = "" ∨
    ∃ t, writeHead d msg false = "Previous error: " ++ t := by
  unfold writeHead
  by_cases hd : d = ""
  · simp [hd]
  · rw [if_pos hd]
    exact Or.inr ⟨msg ++ ("\n\t" ++ (indentS d ++ (if d.endsWith "\n" then "" else "\n"))),
      by simp [String.append_assoc]⟩

theorem writeErr_error_prefix (e : Err) : ∃ t, writeErr e true = "Error: " ++ t := by
  rw [writeErr_eq]
  obtain ⟨t0, ht⟩ := writeHead_error_prefix (detailsOf e) (errString e)
  rw [ht, String.append_assoc]
  exact ⟨_, rfl⟩

theorem writeErr_prev_prefix : ∀ e : Err,
    writeErr e false = "" ∨ ∃ t, writeErr e false = "Previous error: " ++ t
  | .msg t s => by
    rw [writeErr_eq]
    rcases writeHead_prev_prefix (detailsOf (.msg t s)) (errString (.msg t s)) with hh | ⟨t0, hh⟩
    · rw [hh, String.empty_append]
      exact Or.inl rfl
    · rw [hh, String.append_assoc]
      exact Or.inr ⟨_, rfl⟩
  | .multi cs => by
    rw [writeErr_eq]
    rcases writeHead_prev_prefix (detailsOf (.multi cs)) (errString (.multi cs)) with hh | ⟨t0, hh⟩
    · rw [hh, String.empty_append]
      exact Or.inl rfl
    · rw [hh, String.append_assoc]
      exact Or.inr ⟨_, rfl⟩
  | .wrap w n m => by
    rw [writeErr_eq]
    rcases writeHead_prev_prefix (detailsOf (.wrap w n m)) (errString (.wrap w n m)) with hh | ⟨t0, hh⟩
    · rw [hh, String.empty_append]
      exact writeErr_prev_prefix n
    · rw [hh, String.append_assoc]
      exact Or.inr ⟨_, rfl⟩
  | .stack n st => by
    rw [writeErr_eq]
    rcases writeHead_prev_prefix (detailsOf (.stack n st)) (errString (.stack n st)) with hh | ⟨t0, hh⟩
    · rw [hh, String.empty_append]
      exact writeErr_prev_prefix n
    · rw [hh, String.append_assoc]
      exact Or.inr ⟨_, rfl⟩
  | .value n k v => by
    rw [writeErr_eq]
    rcases writeHead_prev_prefix (detailsOf (.value n k v)) (errString (.value n k v)) with hh | ⟨t0, hh⟩
    · rw [hh, String.empty_append]
      exact writeErr_prev_prefix n
    · rw [hh, String.append_assoc]
      exact Or.inr ⟨_, rfl⟩

theorem writeErr_nodetail (e : Err) (h : detailsOf e = "") :
    writeErr e false =
      (match unwrapE e with
       | some n => writeErr n false
       | none => "") := by
  rw [writeErr_eq]
  have hh : writeHead (detailsOf e) (errString e) false = "" := by
    simp [writeHead, h]
  rw [hh, String.empty_append]

/-- C9: for every non-nil error the rendering of `Sprint`/`Print`/
`Fprint` ends with a newline; the first primary-chain node is prefixed
`"Error: "` and each emitted later node `"Previous error: "`; a node
without details beyond the first contributes nothing to the output;
and `Sprint(Message("foo")) == "Error: foo\n"`. -/
theorem c9_render_format :
    (∀ e, ∃ s, SprintE (some e) = s ++ "\n") ∧
    (∀ e, ∃ t, SprintE (some e) = "Error: " ++ t) ∧
    (∀ e, writeErr e false = "" ∨ ∃ t, writeErr e false = "Previous error: " ++ t) ∧
    (∀ e, detailsOf e = "" →
      writeErr e false =
        (match unwrapE e with
         | some n => writeErr n false
         | none => "")) ∧
    SprintE (some (.msg 0 "foo")) = "Error: foo\n" := by
  refine ⟨fun e => writeErr_true_newline e, fun e => writeErr_error_prefix e,
    writeErr_prev_prefix, writeErr_nodetail, ?_⟩
  show writeErr (.msg 0 "foo") true = _
  rw [writeErr_eq]
  simp only [detailsOf, errString, unwrapE, writeHead]
  simp only [ne_eq, not_true_eq_false, if_false, if_true, String.append_empty]
  decide

/-- Witness for C9 at a concrete input. -/
theorem c9_witness :
    writeErr (.msg 0 "bar") false =
      (match unwrapE (.msg 0 "bar") with
       | some n => writeErr n false
       | none => "") :=
  c9_render_format.2.2.2.1 (.msg 0 "bar") (by simp [detailsOf])

/-- C10: a nil error renders as the empty string: `Sprint` returns
`""`, `Print` writes nothing, and `Fprint` writes zero bytes — no
trailing newline is produced for nil input. -/
theorem c10_nil_renders_empty :
    SprintE none = "" ∧ PrintE none = "" ∧ FprintLen none = 0 :=
  ⟨rfl, rfl, rfl⟩

end Xerrors
